import Mathlib

/-
Verification of the position-normalization and ordering engine of
src/grapher/grapher.go: the offset translator (ensureOffsetsAreByteOffsets,
fix, addOrGetFile), the span sorter (sortedOutput), the driver (Graph) and
the batch normalizer (NormalizeData).

Modelling conventions:
  - Go ints are Lean Int.
  - The filesystem seen through os.Stat / ioutil.ReadFile is a function
    from paths to an optional entry; a missing path (Stat error) is none,
    an existing non-regular entry carries no content, and a regular file
    is its content, represented as the list of byte widths of its
    codepoints (each rune of the file contributes its encoded width).
    A file whose Stat succeeds as regular is assumed readable, as in a
    run where no file changes mid-pass (spec section 3 invariant).
  - A panic recovered by the defer in fix is modelled as an Option-valued
    lookup: none aborts the remaining offset rewrites of that one call and
    produces the logged warning, which we record as the path named in the
    log message.
  - log.Printf output is modelled as the list of warning messages' paths.
-/

namespace Srclib

/-- A filesystem entry as observed by the os.Stat check in fix
(grapher.go line 88): either a regular file with content, given as the
byte widths of its successive codepoints, or an existing non-regular
entry (directory, device, ...). -/
inductive FsEntry where
  | regular (runeWidths : List Nat)
  | notRegular
deriving DecidableEq

/-- The filesystem: none models a Stat error (missing path). -/
abbrev Fs := String → Option FsEntry

/-- Model of filepath.Join dir filename (grapher.go line 87). -/
def joinPath (dir filename : String) : String := dir ++ "/" ++ filename

/-- Modelled from the spec: fileset.File.ByteOffsetOfRune, from the
external fileset package (github.com/sqs/fileset), which is not part of
this repository. Per spec sections 3, 4.1 and 8, the PositionIndex maps a
codepoint ordinal to the byte offset at which that codepoint begins
(translating the full codepoint count yields the byte length), and an
out-of-range codepoint offset panics, modelled as none. -/
def byteOffsetOfRune (runeWidths : List Nat) (r : Int) : Option Int :=
  if 0 ≤ r ∧ r ≤ (runeWidths.length : Int) then
    some ((runeWidths.take r.toNat).sum : Int)
  else none

/-- The offset-rewriting loop of fix (grapher.go lines 92-97), generic in
the lookup function f.ByteOffsetOfRune. Offsets are rewritten left to
right; a zero offset is skipped; a lookup panic (none) is recovered by
the surrounding defer, so that offset and all later ones keep their old
values. Returns the new offset values and whether a panic occurred. -/
def fixOffsets (lookup : Int → Option Int) : List Int → List Int × Bool
  | [] => ([], false)
  | o :: rest =>
    if o = 0 then
      let r := fixOffsets lookup rest
      (o :: r.1, r.2)
    else
      match lookup o with
      | some b =>
        let r := fixOffsets lookup rest
        (b :: r.1, r.2)
      | none => (o :: rest, true)

/-- The per-pass index cache (grapher.go lines 61-76). The files map is
modelled as the list of paths whose index has been built, in build order;
addOrGetFile returns the updated cache and whether this call built a new
index (read the file and constructed its PositionIndex). -/
def addOrGetFile (cache : List String) (filename : String) :
    List String × Bool :=
  if filename ∈ cache then (cache, false) else (cache ++ [filename], true)

/-- Result of one call to fix: the updated index cache, whether this call
built a new index, the offset values after the call, and the path named
in the logged warning, if the recovered panic fired. -/
structure FixOut where
  cache : List String
  built : Bool
  offsets : List Int
  warn : Option String
deriving DecidableEq

/-- fix (grapher.go lines 78-98): skip empty filenames; join with dir;
skip paths whose Stat fails or which are not regular files; otherwise
build or fetch the file's index and rewrite each nonzero offset, with the
deferred recover turning a lookup panic into a logged warning naming the
file. -/
def fix (fs : Fs) (dir : String) (cache : List String) (filename : String)
    (offsets : List Int) : FixOut :=
  if filename = "" then ⟨cache, false, offsets, none⟩
  else
    let path := joinPath dir filename
    match fs path with
    | none => ⟨cache, false, offsets, none⟩
    | some FsEntry.notRegular => ⟨cache, false, offsets, none⟩
    | some (FsEntry.regular widths) =>
      let c := addOrGetFile cache path
      let r := fixOffsets (byteOffsetOfRune widths) offsets
      ⟨c.1, c.2, r.1, if r.2 then some path else none⟩

/-- graph.Def (package graph): the fields the grapher core touches. The
remaining metadata fields are carried through untouched (spec section 3)
and Path stands for the symbol identity used as sort tiebreak. -/
structure Def where
  Path : String
  File : String
  DefStart : Int
  DefEnd : Int
deriving DecidableEq

/-- graph.Ref (package graph): the fields the grapher core touches. -/
structure Ref where
  DefRepo : String
  DefPath : String
  File : String
  Start : Int
  End : Int
deriving DecidableEq

/-- graph.Doc (package graph): the fields the grapher core touches; Data
is the free-text body. -/
structure Doc where
  Data : String
  File : String
  Start : Int
  End : Int
deriving DecidableEq

/-- Output (grapher.go lines 25-29). -/
structure Output where
  Defs : List Def
  Refs : List Ref
  Docs : List Doc
deriving DecidableEq

/-- Write the offsets rewritten by fix back through the pointers
&s.DefStart, &s.DefEnd (grapher.go line 101). fix preserves the number of
offsets, so the catch-all branch is unreachable. -/
def setDefOffsets (d : Def) : List Int → Def
  | [s, e] => { d with DefStart := s, DefEnd := e }
  | _ => d

/-- Write the offsets rewritten by fix back through &r.Start, &r.End
(grapher.go line 104). -/
def setRefOffsets (r : Ref) : List Int → Ref
  | [s, e] => { r with Start := s, End := e }
  | _ => r

/-- Write the offsets rewritten by fix back through &d.Start, &d.End
(grapher.go line 107). -/
def setDocOffsets (d : Doc) : List Int → Doc
  | [s, e] => { d with Start := s, End := e }
  | _ => d

/-- The three fix-up loops of ensureOffsetsAreByteOffsets (grapher.go
lines 100-108) share one shape: call fix with the span's file and offset
fields and write the rewritten offsets back. Modelled once, generic in
the span kind; the cache is threaded left to right through the whole pass
and the logged warnings are collected in order. -/
def fixSpans {σ : Type} (fs : Fs) (dir : String) (getFile : σ → String)
    (getOffsets : σ → List Int) (setOffsets : σ → List Int → σ) :
    List String → List σ → List String × List σ × List String
  | cache, [] => (cache, [], [])
  | cache, s :: ss =>
    let r := fix fs dir cache (getFile s) (getOffsets s)
    let rest := fixSpans fs dir getFile getOffsets setOffsets r.cache ss
    (rest.1, setOffsets s r.offsets :: rest.2.1, r.warn.toList ++ rest.2.2)

/-- The Defs loop (grapher.go lines 100-102). -/
def fixDefs (fs : Fs) (dir : String) (cache : List String)
    (ds : List Def) : List String × List Def × List String :=
  fixSpans fs dir Def.File (fun d => [d.DefStart, d.DefEnd]) setDefOffsets
    cache ds

/-- The Refs loop (grapher.go lines 103-105). -/
def fixRefs (fs : Fs) (dir : String) (cache : List String)
    (rs : List Ref) : List String × List Ref × List String :=
  fixSpans fs dir Ref.File (fun r => [r.Start, r.End]) setRefOffsets
    cache rs

/-- The Docs loop (grapher.go lines 106-108). -/
def fixDocs (fs : Fs) (dir : String) (cache : List String)
    (ds : List Doc) : List String × List Doc × List String :=
  fixSpans fs dir Doc.File (fun d => [d.Start, d.End]) setDocOffsets
    cache ds

/-- ensureOffsetsAreByteOffsets (grapher.go lines 59-109): a fresh cache
(files := make(map...)) is created at the start of the pass, the three
span sequences are walked in order, and the cache is discarded at the
end. Returns the translated batch and the logged warnings. -/
def ensureOffsetsAreByteOffsets (fs : Fs) (dir : String) (o : Output) :
    Output × List String :=
  let rd := fixDefs fs dir [] o.Defs
  let rr := fixRefs fs dir rd.1 o.Refs
  let rc := fixDocs fs dir rr.1 o.Docs
  (⟨rd.2.1, rr.2.1, rc.2.1⟩, rd.2.2 ++ rr.2.2 ++ rc.2.2)

/-- The final cache of one translation pass, as built by
ensureOffsetsAreByteOffsets starting from the empty cache. -/
def passCache (fs : Fs) (dir : String) (o : Output) : List String :=
  let rd := fixDefs fs dir [] o.Defs
  let rr := fixRefs fs dir rd.1 o.Refs
  (fixDocs fs dir rr.1 o.Docs).1

/-- The files referenced by the spans of a batch, in pass order. -/
def spanFiles (o : Output) : List String :=
  o.Defs.map Def.File ++ o.Refs.map Ref.File ++ o.Docs.map Doc.File

/-- Modelled from the spec: the sort key of the Def comparator
(graph.Defs.Less, package graph, not under src/). Spec section 4.2: a
multi-key comparator by file path, then start offset, then a
kind-specific tiebreak such as the symbol name, total on distinct
spans. -/
def defKey (d : Def) : String ×ₗ (Int ×ₗ (Int ×ₗ String)) :=
  toLex (d.File, toLex (d.DefStart, toLex (d.DefEnd, d.Path)))

/-- Modelled from the spec: the sort key of the Ref comparator
(graph.Refs.Less, package graph, not under src/). -/
def refKey (r : Ref) : String ×ₗ (Int ×ₗ (Int ×ₗ (String ×ₗ String))) :=
  toLex (r.File, toLex (r.Start, toLex (r.End, toLex (r.DefRepo, r.DefPath))))

/-- Modelled from the spec: the sort key of the Doc comparator
(graph.Docs.Less, package graph, not under src/). -/
def docKey (d : Doc) : String ×ₗ (Int ×ₗ (Int ×ₗ String)) :=
  toLex (d.File, toLex (d.Start, toLex (d.End, d.Data)))

/-- The strict comparator (sort.Interface Less) induced by a sort key. -/
def keyLt {α κ : Type} [LinearOrder κ] (key : α → κ) (a b : α) : Bool :=
  decide (key a < key b)

/-- The reflexive comparison induced by a sort key. -/
def keyLe {α κ : Type} [LinearOrder κ] (key : α → κ) (a b : α) : Bool :=
  decide (key a ≤ key b)

/-- sort.Sort with the comparator of a sort key. The comparator is total,
so every correct comparison sort produces the same output; modelled with
mergeSort. -/
def sortBy {α κ : Type} [LinearOrder κ] (key : α → κ) (l : List α) :
    List α :=
  l.mergeSort (keyLe key)

/-- sortedOutput (grapher.go lines 111-116). -/
def sortedOutput (o : Output) : Output :=
  ⟨sortBy defKey o.Defs, sortBy refKey o.Refs, sortBy docKey o.Docs⟩

/-- unit.SourceUnit: Type is the source-unit type used both as the
registry key (the dynamic type inspected at grapher.go line 38) and in
the GoPackage check at line 52. -/
structure SourceUnit where
  «Type» : String
  Name : String
deriving DecidableEq

/-- config.Repository, carried through to the registered grapher
untouched. -/
structure Config

/-- The Grapher interface (grapher.go lines 19-21): an external analyzer
producing a raw batch or an error. -/
abbrev GrapherFn := String → SourceUnit → Config → Except String Output

/-- Graph (grapher.go lines 37-57): look up the registered grapher for
the source unit's type, fail with an explicit error when none is
registered, run it, translate offsets unless the unit is a GoPackage
(whose grapher already emits byte offsets), and sort. -/
def Graph (Graphers : String → Option GrapherFn) (fs : Fs) (dir : String)
    (u : SourceUnit) (c : Config) : Except String Output :=
  match Graphers u.«Type» with
  | none =>
    Except.error ("no grapher registered for source unit " ++ u.«Type»)
  | some g =>
    match g dir u c with
    | Except.error e => Except.error e
    | Except.ok o =>
      let o' := if u.«Type» ≠ "GoPackage"
        then (ensureOffsetsAreByteOffsets fs dir o).1 else o
      Except.ok (sortedOutput o')

/-- The per-reference rewrite of NormalizeData (grapher.go lines
120-124): a nonempty DefRepo is replaced by repo.MakeURI of it. MakeURI
lives in package repo, outside src/, so it is a parameter here. -/
def canonicalizeRef (MakeURI : String → String) (r : Ref) : Ref :=
  if r.DefRepo ≠ "" then { r with DefRepo := MakeURI r.DefRepo } else r

/-- NormalizeData (grapher.go lines 119-128): canonicalize each
reference's DefRepo, sort, and return nil. The returned error is the
second component. -/
def NormalizeData (MakeURI : String → String) (o : Output) :
    Output × Option String :=
  let o' := { o with Refs := o.Refs.map (canonicalizeRef MakeURI) }
  (sortedOutput o', none)

/-- A filesystem with no entries at all. -/
def fsNone : Fs := fun _ => none

/-- A filesystem with one two-codepoint regular file at r/a.go. -/
def fsOne : Fs := fun p =>
  if p = "r/a.go" then some (FsEntry.regular [1, 1]) else none

/-- Sample definition span for witnesses. -/
def exDef : Def := ⟨"p/A", "a.go", 3, 5⟩

/-- A second sample definition span, distinct from exDef. -/
def exDefB : Def := ⟨"p/B", "a.go", 3, 5⟩

/-- Sample reference span with an external DefRepo, for witnesses. -/
def exRef : Ref := ⟨"github.com/foo/bar", "p/A", "a.go", 1, 2⟩

/-- Sample reference span with an empty DefRepo, for witnesses. -/
def exRefLocal : Ref := ⟨"", "p/A", "a.go", 1, 2⟩

/-- Sample batch for witnesses. -/
def exOutput : Output := ⟨[exDef], [exRef, exRefLocal], []⟩

/-- Sample canonicalization function standing for repo.MakeURI in
witnesses. -/
def exMakeURI (s : String) : String := "uri:" ++ s

/-- An empty grapher registry, for witnesses. -/
def noGraphers : String → Option GrapherFn := fun _ => none

/-- A sample source unit of an unregistered type, for witnesses. -/
def exUnit : SourceUnit := ⟨"RubyGem", "x"⟩

/- Helper lemmas about the sort comparators and sortBy. -/

theorem keyLe_trans {α κ : Type} [LinearOrder κ] (key : α → κ) :
    ∀ a b c, keyLe key a b = true → keyLe key b c = true →
      keyLe key a c = true := by
  intro a b c hab hbc
  simp only [keyLe, decide_eq_true_eq] at hab hbc ⊢
  exact le_trans hab hbc

theorem keyLe_total {α κ : Type} [LinearOrder κ] (key : α → κ) :
    ∀ a b, (keyLe key a b || keyLe key b a) = true := by
  intro a b
  simp only [keyLe, Bool.or_eq_true, decide_eq_true_eq]
  exact le_total (key a) (key b)

theorem sortBy_perm {α κ : Type} [LinearOrder κ] (key : α → κ)
    (l : List α) : (sortBy key l).Perm l :=
  List.mergeSort_perm l (keyLe key)

theorem sortBy_idem {α κ : Type} [LinearOrder κ] (key : α → κ)
    (l : List α) : sortBy key (sortBy key l) = sortBy key l :=
  List.mergeSort_of_sorted
    (List.sorted_mergeSort (keyLe_trans key) (keyLe_total key) l)

theorem filter_eq_of_perm {α : Type} [DecidableEq α] {l₁ l₂ : List α}
    (h : l₁.Perm l₂) (a : α) :
    l₁.filter (fun x => decide (x = a)) =
      l₂.filter (fun x => decide (x = a)) := by
  have hp := h.filter (fun x => decide (x = a))
  have all₁ : ∀ b ∈ l₁.filter (fun x => decide (x = a)), b = a := by
    intro b hb
    simpa using (List.mem_filter.mp hb).2
  have all₂ : ∀ b ∈ l₂.filter (fun x => decide (x = a)), b = a := by
    intro b hb
    simpa using (List.mem_filter.mp hb).2
  have e₁ : l₁.filter (fun x => decide (x = a)) =
      List.replicate (l₁.filter (fun x => decide (x = a))).length a :=
    List.eq_replicate_iff.mpr ⟨rfl, all₁⟩
  have e₂ : l₂.filter (fun x => decide (x = a)) =
      List.replicate (l₂.filter (fun x => decide (x = a))).length a :=
    List.eq_replicate_iff.mpr ⟨rfl, all₂⟩
  rw [e₁, e₂, hp.length_eq]

theorem keyLt_strict_total {α κ : Type} [LinearOrder κ] (key : α → κ)
    (hinj : Function.Injective key) :
    ∀ a b, a ≠ b →
      (keyLt key a b = true ∧ keyLt key b a = false) ∨
      (keyLt key b a = true ∧ keyLt key a b = false) := by
  intro a b hne
  have hk : key a ≠ key b := fun h => hne (hinj h)
  rcases lt_or_gt_of_ne hk with h | h
  · exact Or.inl ⟨by simp [keyLt, h],
      by simp [keyLt, not_lt.mpr (le_of_lt h)]⟩
  · exact Or.inr ⟨by simp [keyLt, h],
      by simp [keyLt, not_lt.mpr (le_of_lt h)]⟩

theorem keyLt_eq_of_incomp {α κ : Type} [LinearOrder κ] (key : α → κ)
    (hinj : Function.Injective key) :
    ∀ a b, keyLt key a b = false → keyLt key b a = false → a = b := by
  intro a b h₁ h₂
  simp only [keyLt, decide_eq_false_iff_not, not_lt] at h₁ h₂
  exact hinj (le_antisymm h₂ h₁)

theorem defKey_injective : Function.Injective defKey := by
  intro a b h
  simp only [defKey, toLex_inj, Prod.mk.injEq] at h
  obtain ⟨h₁, h₂, h₃, h₄⟩ := h
  cases a; cases b; simp_all

theorem refKey_injective : Function.Injective refKey := by
  intro a b h
  simp only [refKey, toLex_inj, Prod.mk.injEq] at h
  obtain ⟨h₁, h₂, h₃, h₄, h₅⟩ := h
  cases a; cases b; simp_all

theorem docKey_injective : Function.Injective docKey := by
  intro a b h
  simp only [docKey, toLex_inj, Prod.mk.injEq] at h
  obtain ⟨h₁, h₂, h₃, h₄⟩ := h
  cases a; cases b; simp_all

/- Helper lemmas about fixOffsets and fix. -/

theorem fixOffsets_length (lookup : Int → Option Int) :
    ∀ os : List Int, (fixOffsets lookup os).1.length = os.length := by
  intro os
  induction os with
  | nil => rfl
  | cons o rest ih =>
    simp only [fixOffsets]
    by_cases h : o = 0
    · simp [h, ih]
    · cases hl : lookup o with
      | some b => simp [h, hl, ih]
      | none => simp [h, hl]

theorem fix_offsets_cases (fs : Fs) (dir : String) (cache : List String)
    (filename : String) (os : List Int) :
    (fix fs dir cache filename os).offsets = os ∨
    ∃ widths, fs (joinPath dir filename) = some (FsEntry.regular widths) ∧
      (fix fs dir cache filename os).offsets =
        (fixOffsets (byteOffsetOfRune widths) os).1 := by
  unfold fix
  by_cases h : filename = ""
  · simp [h]
  · simp only [h, if_neg, ite_false]
    cases he : fs (joinPath dir filename) with
    | none => simp [he]
    | some e =>
      cases e with
      | notRegular => simp [he]
      | regular w => exact Or.inr ⟨w, rfl, by simp [he]⟩

theorem fixOffsets_zero (lookup : Int → Option Int) :
    ∀ (os : List Int) (i : Nat), os.getD i 0 = 0 →
      (fixOffsets lookup os).1.getD i 0 = 0 := by
  intro os
  induction os with
  | nil => intro i h; simp [fixOffsets]
  | cons o rest ih =>
    intro i h
    by_cases ho : o = 0
    · cases i with
      | zero => simp [fixOffsets, ho]
      | succ n =>
        have := ih n (by simpa using h)
        simpa [fixOffsets, ho] using this
    · cases hl : lookup o with
      | some b =>
        cases i with
        | zero => exact absurd (by simpa using h) ho
        | succ n =>
          have := ih n (by simpa using h)
          simpa [fixOffsets, ho, hl] using this
      | none => simpa [fixOffsets, ho, hl] using h

theorem fixSpans_length {σ : Type} (fs : Fs) (dir : String)
    (gF : σ → String) (gO : σ → List Int) (sO : σ → List Int → σ) :
    ∀ (cache : List String) (ss : List σ),
      ((fixSpans fs dir gF gO sO cache ss).2.1).length = ss.length := by
  intro cache ss
  induction ss generalizing cache with
  | nil => rfl
  | cons s ss ih => simp [fixSpans, ih]

/-- C4: an offset field whose value is exactly zero is skipped before any
PositionIndex lookup and keeps the value zero. The first part states it
for the offset loop of fix, for every possible lookup function (so no
lookup result can change a zero offset: it is never looked up); the
second part states it through a whole call to fix. -/
theorem c4_zero_offset_untouched :
    (∀ (lookup : Int → Option Int) (os : List Int) (i : Nat),
      os.getD i 0 = 0 → (fixOffsets lookup os).1.getD i 0 = 0) ∧
    (∀ (fs : Fs) (dir : String) (cache : List String) (filename : String)
      (os : List Int) (i : Nat),
      os.getD i 0 = 0 →
      (fix fs dir cache filename os).offsets.getD i 0 = 0) := by
  refine ⟨fixOffsets_zero, ?_⟩
  intro fs dir cache filename os i h
  rcases fix_offsets_cases fs dir cache filename os with hc | ⟨w, _, hc⟩
  · rw [hc]; exact h
  · rw [hc]; exact fixOffsets_zero _ os i h

/-- Witness for C4: a zero start offset stays zero even under a lookup
that maps everything to 7. -/
theorem c4_witness :
    (fixOffsets (fun _ => some 7) [0, 3]).1.getD 0 0 = 0 :=
  c4_zero_offset_untouched.1 (fun _ => some 7) [0, 3] 0 rfl

/-- C1 counterexample: for the span (file a.go, offsets 3 and 5) under a
filesystem with no entry at r/a.go, the claim asserts that translation
leaves the offsets unchanged and logs a warning; in fact the offsets are
unchanged but no warning is logged (the Stat check at grapher.go line 88
returns before any logging), so the claimed conjunction is false. -/
theorem c1_counterexample :
    ¬ ((fix fsNone "r" [] "a.go" [3, 5]).offsets = [3, 5] ∧
       (fix fsNone "r" [] "a.go" [3, 5]).warn.isSome = true) := by
  decide

/-- C1 (amended): a span whose file does not exist on disk passes through
fix with its offsets unchanged, no index built and no warning logged: the
skip is silent and produces no error. -/
theorem c1_missing_file_silent :
    ∀ (fs : Fs) (dir : String) (cache : List String) (filename : String)
      (os : List Int), fs (joinPath dir filename) = none →
      fix fs dir cache filename os = ⟨cache, false, os, none⟩ := by
  intro fs dir cache filename os h
  unfold fix
  by_cases hf : filename = ""
  · simp [hf]
  · simp [hf, h]

/-- Witness for C1 (amended) at a concrete missing file. -/
theorem c1_witness :
    fsNone (joinPath "r" "a.go") = none ∧
    fix fsNone "r" [] "a.go" [3, 5] = ⟨[], false, [3, 5], none⟩ :=
  ⟨rfl, c1_missing_file_silent fsNone "r" [] "a.go" [3, 5] rfl⟩

/-- C2: a lookup failure while translating one span is contained. First
part: in the offset loop, if the offsets already processed are zero or
in range and a later offset's lookup panics, the processed offsets keep
their rewritten values, the failing and remaining offsets keep their old
values, and the panic flag is set (no rollback). Second part: the
recovered panic produces a warning naming the offending file. Remaining
parts: the three fix-up loops always produce one output span per input
span, whatever failures occur, so the pass never aborts the batch. -/
theorem c2_per_span_recovery :
    (∀ (lookup : Int → Option Int) (pre : List Int) (bad : Int)
      (post : List Int),
      (∀ x ∈ pre, x = 0 ∨ (lookup x).isSome = true) → bad ≠ 0 →
      lookup bad = none →
      fixOffsets lookup (pre ++ bad :: post) =
        (pre.map (fun x => if x = 0 then x else (lookup x).getD x) ++
          bad :: post, true)) ∧
    (∀ (fs : Fs) (dir : String) (cache : List String) (filename : String)
      (widths : List Nat) (os : List Int), filename ≠ "" →
      fs (joinPath dir filename) = some (FsEntry.regular widths) →
      (fixOffsets (byteOffsetOfRune widths) os).2 = true →
      (fix fs dir cache filename os).warn =
        some (joinPath dir filename)) ∧
    (∀ (fs : Fs) (dir : String) (cache : List String) (ds : List Def),
      ((fixDefs fs dir cache ds).2.1).length = ds.length) ∧
    (∀ (fs : Fs) (dir : String) (cache : List String) (rs : List Ref),
      ((fixRefs fs dir cache rs).2.1).length = rs.length) ∧
    (∀ (fs : Fs) (dir : String) (cache : List String) (ds : List Doc),
      ((fixDocs fs dir cache ds).2.1).length = ds.length) := by
  refine ⟨?_, ?_, ?_, ?_, ?_⟩
  · intro lookup pre bad post
    induction pre with
    | nil =>
      intro _ hbad hnone
      simp [fixOffsets, hbad, hnone]
    | cons x xs ih =>
      intro hpre hbad hnone
      have tail := ih (fun y hy => hpre y (List.mem_cons_of_mem x hy))
        hbad hnone
      by_cases hx0 : x = 0
      · simp [fixOffsets, hx0, tail]
      · have hxsome : (lookup x).isSome = true := by
          rcases hpre x (List.mem_cons_self x xs) with h | h
          · exact absurd h hx0
          · exact h
        obtain ⟨b, hb⟩ := Option.isSome_iff_exists.mp hxsome
        simp [fixOffsets, hx0, hb, tail]
  · intro fs dir cache filename widths os hf hfs hpanic
    unfold fix
    simp [hf, hfs, hpanic]
  · intro fs dir cache ds
    simpa only [fixDefs] using
      fixSpans_length fs dir Def.File (fun d => [d.DefStart, d.DefEnd])
        setDefOffsets cache ds
  · intro fs dir cache rs
    simpa only [fixRefs] using
      fixSpans_length fs dir Ref.File (fun r => [r.Start, r.End])
        setRefOffsets cache rs
  · intro fs dir cache ds
    simpa only [fixDocs] using
      fixSpans_length fs dir Doc.File (fun d => [d.Start, d.End])
        setDocOffsets cache ds

/-- Witness for C2 at a two-codepoint file: the in-range offset 1 is
rewritten, the out-of-range offset 5 and the offset after it keep their
values, the panic flag is set, and a call to fix on that file produces a
warning naming the joined path. -/
theorem c2_witness :
    fixOffsets (byteOffsetOfRune [1, 1]) ([1] ++ 5 :: [2]) =
      ([1].map (fun x => if x = 0 then x
        else (byteOffsetOfRune [1, 1] x).getD x) ++ 5 :: [2], true) ∧
    (fix fsOne "r" [] "a.go" [1, 5]).warn = some (joinPath "r" "a.go") :=
  ⟨c2_per_span_recovery.1 (byteOffsetOfRune [1, 1]) [1] 5 [2]
      (by decide) (by decide) (by decide),
   c2_per_span_recovery.2.1 fsOne "r" [] "a.go" [1, 1] [1, 5]
      (by decide) (by decide) (by decide)⟩

/-- C3: the Span Sorter is stable and its comparators are total. For each
of the three span kinds: two distinct spans are strictly ordered one way
and not the other by the comparator; two spans the comparator judges
equal (neither is less than the other) are identical; and hence sorting
preserves the relative order of comparator-equal spans, stated as: the
subsequence of spans judged equal to any given span is exactly the same
before and after sorting. -/
theorem c3_sorter_stable_total :
    (∀ a b : Def, a ≠ b →
      (keyLt defKey a b = true ∧ keyLt defKey b a = false) ∨
      (keyLt defKey b a = true ∧ keyLt defKey a b = false)) ∧
    (∀ a b : Def, keyLt defKey a b = false → keyLt defKey b a = false →
      a = b) ∧
    (∀ (l : List Def) (a : Def),
      (sortBy defKey l).filter (fun x => decide (x = a)) =
        l.filter (fun x => decide (x = a))) ∧
    (∀ a b : Ref, a ≠ b →
      (keyLt refKey a b = true ∧ keyLt refKey b a = false) ∨
      (keyLt refKey b a = true ∧ keyLt refKey a b = false)) ∧
    (∀ a b : Ref, keyLt refKey a b = false → keyLt refKey b a = false →
      a = b) ∧
    (∀ (l : List Ref) (a : Ref),
      (sortBy refKey l).filter (fun x => decide (x = a)) =
        l.filter (fun x => decide (x = a))) ∧
    (∀ a b : Doc, a ≠ b →
      (keyLt docKey a b = true ∧ keyLt docKey b a = false) ∨
      (keyLt docKey b a = true ∧ keyLt docKey a b = false)) ∧
    (∀ a b : Doc, keyLt docKey a b = false → keyLt docKey b a = false →
      a = b) ∧
    (∀ (l : List Doc) (a : Doc),
      (sortBy docKey l).filter (fun x => decide (x = a)) =
        l.filter (fun x => decide (x = a))) :=
  ⟨keyLt_strict_total defKey defKey_injective,
   keyLt_eq_of_incomp defKey defKey_injective,
   fun l a => filter_eq_of_perm (sortBy_perm defKey l) a,
   keyLt_strict_total refKey refKey_injective,
   keyLt_eq_of_incomp refKey refKey_injective,
   fun l a => filter_eq_of_perm (sortBy_perm refKey l) a,
   keyLt_strict_total docKey docKey_injective,
   keyLt_eq_of_incomp docKey docKey_injective,
   fun l a => filter_eq_of_perm (sortBy_perm docKey l) a⟩

/-- Witness for C3 at concrete spans: exDef and exDefB share file and
offsets and differ only in symbol path, and the comparator orders them
strictly. -/
theorem c3_witness :
    (keyLt defKey exDef exDefB = true ∧ keyLt defKey exDefB exDef = false) ∨
    (keyLt defKey exDefB exDef = true ∧ keyLt defKey exDef exDefB = false) :=
  c3_sorter_stable_total.1 exDef exDefB (by decide)

/-- C5: sorting is idempotent: applying the Span Sorter twice yields the
same batch as applying it once. -/
theorem c5_sort_idempotent :
    ∀ o : Output, sortedOutput (sortedOutput o) = sortedOutput o := by
  intro o
  simp only [sortedOutput]
  rw [sortBy_idem, sortBy_idem, sortBy_idem]

/-- C6: the Span Sorter permutes each sequence: the multiset of
definitions, of references and of documentation spans is unchanged. -/
theorem c6_sort_permutation :
    ∀ o : Output,
      ((sortedOutput o).Defs : Multiset Def) = (o.Defs : Multiset Def) ∧
      ((sortedOutput o).Refs : Multiset Ref) = (o.Refs : Multiset Ref) ∧
      ((sortedOutput o).Docs : Multiset Doc) = (o.Docs : Multiset Doc) :=
  fun o =>
    ⟨Multiset.coe_eq_coe.mpr (sortBy_perm defKey o.Defs),
     Multiset.coe_eq_coe.mpr (sortBy_perm refKey o.Refs),
     Multiset.coe_eq_coe.mpr (sortBy_perm docKey o.Docs)⟩

/- Helper lemmas about the per-pass cache. -/

theorem fix_cache_mem (fs : Fs) (dir : String) (cache : List String)
    (filename : String) (os : List Int) (p : String) :
    p ∈ (fix fs dir cache filename os).cache ↔
      p ∈ cache ∨ (filename ≠ "" ∧ p = joinPath dir filename ∧
        ∃ w, fs (joinPath dir filename) = some (FsEntry.regular w)) := by
  by_cases hf : filename = ""
  · simp [fix, hf]
  · cases he : fs (joinPath dir filename) with
    | none => simp [fix, hf, he]
    | some e =>
      cases e with
      | notRegular => simp [fix, hf, he]
      | regular w =>
        have hfx : (fix fs dir cache filename os).cache =
            (addOrGetFile cache (joinPath dir filename)).1 := by
          simp [fix, hf, he]
        rw [hfx]
        unfold addOrGetFile
        by_cases hm : joinPath dir filename ∈ cache
        · simp only [if_pos hm]
          constructor
          · exact Or.inl
          · rintro (h | ⟨-, rfl, -⟩)
            · exact h
            · exact hm
        · simp only [if_neg hm, List.mem_append, List.mem_singleton]
          constructor
          · rintro (h | hp)
            · exact Or.inl h
            · exact Or.inr ⟨hf, hp, w, rfl⟩
          · rintro (h | ⟨-, hp, -⟩)
            · exact Or.inl h
            · exact Or.inr hp

theorem fix_cache_nodup (fs : Fs) (dir : String) (cache : List String)
    (filename : String) (os : List Int) (h : cache.Nodup) :
    ((fix fs dir cache filename os).cache).Nodup := by
  by_cases hf : filename = ""
  · simpa [fix, hf] using h
  · cases he : fs (joinPath dir filename) with
    | none => simpa [fix, hf, he] using h
    | some e =>
      cases e with
      | notRegular => simpa [fix, hf, he] using h
      | regular w =>
        have hfx : (fix fs dir cache filename os).cache =
            (addOrGetFile cache (joinPath dir filename)).1 := by
          simp [fix, hf, he]
        rw [hfx]
        unfold addOrGetFile
        by_cases hm : joinPath dir filename ∈ cache
        · simpa [hm] using h
        · simp only [if_neg hm]
          exact List.Nodup.append h (List.nodup_singleton _)
            (by simp [List.disjoint_singleton, hm])

theorem fixSpans_cache_nodup {σ : Type} (fs : Fs) (dir : String)
    (gF : σ → String) (gO : σ → List Int) (sO : σ → List Int → σ) :
    ∀ (cache : List String) (ss : List σ), cache.Nodup →
      ((fixSpans fs dir gF gO sO cache ss).1).Nodup := by
  intro cache ss
  induction ss generalizing cache with
  | nil => intro h; simpa [fixSpans] using h
  | cons s ss ih =>
    intro h
    simp only [fixSpans]
    exact ih _ (fix_cache_nodup fs dir cache (gF s) (gO s) h)

theorem fixSpans_cache_mem {σ : Type} (fs : Fs) (dir : String)
    (gF : σ → String) (gO : σ → List Int) (sO : σ → List Int → σ) :
    ∀ (cache : List String) (ss : List σ) (p : String),
      p ∈ (fixSpans fs dir gF gO sO cache ss).1 ↔
        p ∈ cache ∨ ∃ s ∈ ss, gF s ≠ "" ∧ p = joinPath dir (gF s) ∧
          ∃ w, fs (joinPath dir (gF s)) = some (FsEntry.regular w) := by
  intro cache ss p
  induction ss generalizing cache with
  | nil => simp [fixSpans]
  | cons s ss ih =>
    simp only [fixSpans]
    rw [ih, fix_cache_mem]
    constructor
    · rintro ((h | hs) | ⟨s', hs', hp⟩)
      · exact Or.inl h
      · exact Or.inr ⟨s, List.mem_cons_self s ss, hs⟩
      · exact Or.inr ⟨s', List.mem_cons_of_mem s hs', hp⟩
    · rintro (h | ⟨s', hs', hp⟩)
      · exact Or.inl (Or.inl h)
      · rcases List.mem_cons.mp hs' with rfl | hmem
        · exact Or.inl (Or.inr hp)
        · exact Or.inr ⟨s', hmem, hp⟩

/-- C7: the PositionIndex for a file is built at most once per pass.
First part: a filename already in the cache is returned as-is, with no
new build. Second part: the final cache of a whole pass started on the
empty cache (as ensureOffsetsAreByteOffsets starts it) has no duplicate:
no file's index is ever built twice in a pass. Third part: a path enters
the pass cache exactly when some span of the batch references it with a
nonempty filename resolving to an existing regular file. -/
theorem c7_index_built_once :
    (∀ (cache : List String) (f : String), f ∈ cache →
      addOrGetFile cache f = (cache, false)) ∧
    (∀ (fs : Fs) (dir : String) (o : Output),
      (passCache fs dir o).Nodup) ∧
    (∀ (fs : Fs) (dir : String) (o : Output) (p : String),
      p ∈ passCache fs dir o ↔
        ∃ f ∈ spanFiles o, f ≠ "" ∧ p = joinPath dir f ∧
          ∃ w, fs (joinPath dir f) = some (FsEntry.regular w)) := by
  refine ⟨?_, ?_, ?_⟩
  · intro cache f h
    simp [addOrGetFile, h]
  · intro fs dir o
    simp only [passCache, fixDefs, fixRefs, fixDocs]
    exact fixSpans_cache_nodup _ _ _ _ _ _ _
      (fixSpans_cache_nodup _ _ _ _ _ _ _
        (fixSpans_cache_nodup _ _ _ _ _ _ _ List.nodup_nil))
  · intro fs dir o p
    simp only [passCache, fixDefs, fixRefs, fixDocs]
    rw [fixSpans_cache_mem, fixSpans_cache_mem, fixSpans_cache_mem]
    simp only [List.not_mem_nil, false_or]
    constructor
    · rintro ((⟨d, hd, hp⟩ | ⟨r, hr, hp⟩) | ⟨d, hd, hp⟩)
      · refine ⟨d.File, ?_, hp⟩
        simp only [spanFiles, List.mem_append, List.mem_map]
        exact Or.inl (Or.inl ⟨d, hd, rfl⟩)
      · refine ⟨r.File, ?_, hp⟩
        simp only [spanFiles, List.mem_append, List.mem_map]
        exact Or.inl (Or.inr ⟨r, hr, rfl⟩)
      · refine ⟨d.File, ?_, hp⟩
        simp only [spanFiles, List.mem_append, List.mem_map]
        exact Or.inr ⟨d, hd, rfl⟩
    · rintro ⟨f, hf, hp⟩
      simp only [spanFiles, List.mem_append, List.mem_map] at hf
      rcases hf with (⟨d, hd, rfl⟩ | ⟨r, hr, rfl⟩) | ⟨d, hd, rfl⟩
      · exact Or.inl (Or.inl ⟨d, hd, hp⟩)
      · exact Or.inl (Or.inr ⟨r, hr, hp⟩)
      · exact Or.inr ⟨d, hd, hp⟩

/-- Witness for C7: looking up an already-cached path returns the cache
unchanged and reports that no index was built. -/
theorem c7_witness :
    addOrGetFile ["r/a.go"] "r/a.go" = (["r/a.go"], false) :=
  c7_index_built_once.1 ["r/a.go"] "r/a.go" (by decide)

/-- C8: when no grapher is registered for the source unit's type, Graph
returns the explicit no-grapher-registered error value (and hence no
output) instead of crashing. -/
theorem c8_no_grapher_error :
    ∀ (Graphers : String → Option GrapherFn) (fs : Fs) (dir : String)
      (u : SourceUnit) (c : Config), Graphers u.«Type» = none →
      Graph Graphers fs dir u c =
        Except.error ("no grapher registered for source unit " ++
          u.«Type») := by
  intro G fs dir u c h
  unfold Graph
  rw [h]

/-- Witness for C8 with the empty registry. -/
theorem c8_witness :
    Graph noGraphers fsNone "r" exUnit ⟨⟩ =
      Except.error ("no grapher registered for source unit " ++
        exUnit.«Type») :=
  c8_no_grapher_error noGraphers fsNone "r" exUnit ⟨⟩ rfl

/-- C9: NormalizeData rewrites every nonempty DefRepo through the
canonicalization function and then sorts. It never returns an error (the
rewrite is a total function and sorting never fails); the output
references are exactly the canonicalized input references reordered; and
an input reference whose DefRepo is github.com/foo/bar yields an output
reference whose DefRepo is the canonical URI form of that identifier.
Stated for every canonicalization function, since repo.MakeURI lives
outside src/. -/
theorem c9_normalize_canonical :
    (∀ (MakeURI : String → String) (o : Output),
      (NormalizeData MakeURI o).2 = none) ∧
    (∀ (MakeURI : String → String) (o : Output),
      (((NormalizeData MakeURI o).1.Refs : List Ref) : Multiset Ref) =
        (o.Refs.map (canonicalizeRef MakeURI) : Multiset Ref)) ∧
    (∀ (MakeURI : String → String) (o : Output) (r : Ref), r ∈ o.Refs →
      r.DefRepo = "github.com/foo/bar" →
      ∃ r' ∈ (NormalizeData MakeURI o).1.Refs,
        r'.DefRepo = MakeURI "github.com/foo/bar" ∧
        r' = canonicalizeRef MakeURI r) := by
  refine ⟨fun M o => rfl, ?_, ?_⟩
  · intro M o
    exact Multiset.coe_eq_coe.mpr (sortBy_perm refKey _)
  · intro M o r hr hrepo
    have hne : r.DefRepo ≠ "" := by rw [hrepo]; decide
    refine ⟨canonicalizeRef M r, ?_, ?_, rfl⟩
    · have hm : canonicalizeRef M r ∈ o.Refs.map (canonicalizeRef M) :=
        List.mem_map_of_mem _ hr
      show canonicalizeRef M r ∈
        sortBy refKey (o.Refs.map (canonicalizeRef M))
      exact ((sortBy_perm refKey _).mem_iff).mpr hm
    · simp [canonicalizeRef, hne, hrepo]

/-- Witness for C9 on a concrete batch and canonicalization function. -/
theorem c9_witness :
    ∃ r' ∈ (NormalizeData exMakeURI exOutput).1.Refs,
      r'.DefRepo = exMakeURI "github.com/foo/bar" ∧
      r' = canonicalizeRef exMakeURI exRef :=
  c9_normalize_canonical.2.2 exMakeURI exOutput exRef (by decide) rfl

/-- C10: a reference whose DefRepo is the empty string is left unchanged
by the canonicalization rewrite, whatever the canonicalization function
is (so it is never applied to an empty identifier); such a reference is
still present, unchanged, in the normalized output; and NormalizeData
always returns nil. -/
theorem c10_empty_defrepo_unchanged :
    (∀ (MakeURI : String → String) (r : Ref), r.DefRepo = "" →
      canonicalizeRef MakeURI r = r) ∧
    (∀ (MakeURI : String → String) (o : Output) (r : Ref), r ∈ o.Refs →
      r.DefRepo = "" → r ∈ (NormalizeData MakeURI o).1.Refs) ∧
    (∀ (MakeURI : String → String) (o : Output),
      (NormalizeData MakeURI o).2 = none) := by
  refine ⟨?_, ?_, fun M o => rfl⟩
  · intro M r h
    simp [canonicalizeRef, h]
  · intro M o r hr h
    have hc : canonicalizeRef M r = r := by simp [canonicalizeRef, h]
    have hm : r ∈ o.Refs.map (canonicalizeRef M) :=
      hc ▸ List.mem_map_of_mem _ hr
    show r ∈ sortBy refKey (o.Refs.map (canonicalizeRef M))
    exact ((sortBy_perm refKey _).mem_iff).mpr hm

/-- Witness for C10 on a concrete batch: the empty-DefRepo reference is
untouched and survives normalization. -/
theorem c10_witness :
    canonicalizeRef exMakeURI exRefLocal = exRefLocal ∧
    exRefLocal ∈ (NormalizeData exMakeURI exOutput).1.Refs :=
  ⟨c10_empty_defrepo_unchanged.1 exMakeURI exRefLocal rfl,
   c10_empty_defrepo_unchanged.2.1 exMakeURI exOutput exRefLocal
     (by decide) rfl⟩

end Srclib
